import Mathlib

/-!
Verification of the smartprix batch-ingestion pipeline (src/main.py).

The development shallowly embeds the pipeline's substantive logic:
the key encoder `Sa`, the feed-diff batching of `main` (lines 163-164),
the per-item fetch loop of `main` (lines 173-182), the record flattener
`parse_product`, the progress store `load_progress`/`save_progress`, and
the CSV schema-merging append of `main` (lines 184-203).

JSON documents are modelled by the inductive `JVal`; Python dictionary
access (`dict.get`), iteration, truthiness and string conversion are
modelled by `jget`, `pyIter`, `truthy` and `pyStr`; code that can raise
a Python exception returns `Except Unit`.
-/

/-- A JSON value, as returned by `resp.json()` in the source.  Numbers are
modelled as integers. -/
inductive JVal where
  | null
  | bool (b : Bool)
  | num (n : Int)
  | str (s : String)
  | arr (xs : List JVal)
  | obj (kvs : List (String × JVal))

/-- Python truthiness (`if not e`, `if title:`): None, False, 0, empty
string, empty list and empty dict are falsy. -/
def truthy : JVal → Bool
  | .null => false
  | .bool b => b
  | .num n => decide (n ≠ 0)
  | .str s => decide (s ≠ "")
  | .arr xs => !xs.isEmpty
  | .obj kvs => !kvs.isEmpty

/-- Association lookup on the key-value list of a JSON object. -/
def kvLookup (k : String) : List (String × JVal) → Option JVal
  | [] => none
  | (k1, v) :: rest => if k1 = k then some v else kvLookup k rest

/-- Python `v.get(k, d)`: returns the entry or the default on a dict, and
raises `AttributeError` (modelled as `Except.error`) on any other value. -/
def jget (v : JVal) (k : String) (d : JVal) : Except Unit JVal :=
  match v with
  | .obj kvs => .ok ((kvLookup k kvs).getD d)
  | _ => .error ()

/-- Total variant of `jget`, for stating what a successful parse reads:
on a non-object it yields the default instead of an error. -/
def jgetD (v : JVal) (k : String) (d : JVal) : JVal :=
  match v with
  | .obj kvs => (kvLookup k kvs).getD d
  | _ => d

/-- Python `for x in v`: lists iterate their elements, strings their
one-character substrings, dicts their keys; other values raise
`TypeError`. -/
def pyIter : JVal → Except Unit (List JVal)
  | .arr xs => .ok xs
  | .str s => .ok (s.data.map (fun c => .str (String.mk [c])))
  | .obj kvs => .ok (kvs.map (fun kv => .str kv.1))
  | _ => .error ()

mutual
/-- Python `repr`, as used by `str()` on nested containers ( `f"{title}"` in
`parse_product`).  String quoting is modelled without escape handling; no
theorem below depends on the concrete text. -/
def pyRepr : JVal → String
  | .null => "None"
  | .bool true => "True"
  | .bool false => "False"
  | .num n => toString n
  | .str s => "\x27" ++ s ++ "\x27"
  | .arr xs => "[" ++ pyReprA xs ++ "]"
  | .obj kvs => "\x7b" ++ pyReprO kvs ++ "\x7d"
/-- `repr` of the elements of a list, comma separated. -/
def pyReprA : List JVal → String
  | [] => ""
  | [x] => pyRepr x
  | x :: y :: xs => pyRepr x ++ ", " ++ pyReprA (y :: xs)
/-- `repr` of the entries of a dict, comma separated. -/
def pyReprO : List (String × JVal) → String
  | [] => ""
  | [(k, v)] => "\x27" ++ k ++ "\x27: " ++ pyRepr v
  | (k, v) :: kv :: kvs => "\x27" ++ k ++ "\x27: " ++ pyRepr v ++ ", " ++ pyReprO (kv :: kvs)
end

/-- Python `str()` as used by f-string interpolation: a string is taken
verbatim, anything else through `repr`. -/
def pyStr : JVal → String
  | .str s => s
  | v => pyRepr v

/-- One character of JSON string-escaping, shared by the serializer model
and the progress-file writer: backslash, quote and the common control
characters are escaped, everything else passes through. -/
def escChar (c : Char) : List Char :=
  if c = '\\' then ['\\', '\\']
  else if c = '"' then ['\\', '"']
  else if c = '\n' then ['\\', 'n']
  else if c = '\t' then ['\\', 't']
  else if c = '\r' then ['\\', 'r']
  else [c]

/-- JSON string-escaping of a whole string. -/
def escAll (s : String) : List Char :=
  s.data.foldr (fun c acc => escChar c ++ acc) []

/-- A JSON string literal: opening quote, escaped body, closing quote. -/
def quoteChars (s : String) : List Char :=
  '"' :: (escAll s ++ ['"'])

mutual
/-- `json.dumps` with item separator `isep` and key separator `ksep`
(the source calls it with `(",", ":")` in `Sa` and with the default
`(", ", ": ")` in `parse_product`). -/
def dumpsV (isep ksep : String) : JVal → String
  | .null => "null"
  | .bool true => "true"
  | .bool false => "false"
  | .num n => toString n
  | .str s => String.mk (quoteChars s)
  | .arr xs => "[" ++ dumpsA isep ksep xs ++ "]"
  | .obj kvs => "\x7b" ++ dumpsO isep ksep kvs ++ "\x7d"
/-- Serialization of the elements of a JSON array. -/
def dumpsA (isep ksep : String) : List JVal → String
  | [] => ""
  | [x] => dumpsV isep ksep x
  | x :: y :: xs => dumpsV isep ksep x ++ isep ++ dumpsA isep ksep (y :: xs)
/-- Serialization of the entries of a JSON object. -/
def dumpsO (isep ksep : String) : List (String × JVal) → String
  | [] => ""
  | [(k, v)] => String.mk (quoteChars k) ++ ksep ++ dumpsV isep ksep v
  | (k, v) :: kv :: kvs =>
      String.mk (quoteChars k) ++ ksep ++ dumpsV isep ksep v ++ isep ++ dumpsO isep ksep (kv :: kvs)
end

/-- The encoder's 64-symbol alphabet (`Aa` in the source, line 31). -/
def Aa : String := "0123456789ABCDEFGHIJKLMNOPQRSTUVWXYZabcdefghijklmnopqrstuvwxyz-_"

/-- The alphabet as a character list, for positional indexing. -/
def AaList : List Char := Aa.data

/-- The body of the encoder loop (`for ch in t` in `Sa`, lines 38-47):
appends the encoding of one character to the accumulator `n`. -/
def saStep (n : String) (ch : Char) : String :=
  if ch.toNat > 127 then n ++ String.mk [ch]
  else if ch.toNat % 95 < 64 then n ++ String.mk [AaList.getD (ch.toNat % 95) ' ']
  else n ++ "." ++ String.mk [AaList.getD (ch.toNat % 95 &&& 63) ' ']

/-- The key encoder `Sa` (source lines 33-48): empty/falsy input maps to
`""`; otherwise the compact JSON serialization of the descriptor is
folded through `saStep` starting from the literal prefix `"1"`. -/
def Sa (e : JVal) : String :=
  if truthy e = false then ""
  else (dumpsV "," ":" e).data.foldl saStep "1"

/-- Spec-side description of the per-character encoding, written from the
claim's words: the character itself beyond code point 127, the alphabet
symbol at `code % 95` when that is below 64, and otherwise a literal `"."`
followed by the symbol at `(code % 95) AND 63`. -/
def encCharSpec (c : Char) : String :=
  if c.toNat > 127 then String.mk [c]
  else if c.toNat % 95 < 64 then String.mk [AaList.getD (c.toNat % 95) ' ']
  else "." ++ String.mk [AaList.getD (c.toNat % 95 &&& 63) ' ']

/-- A normalized feed entry (`extract_endpoint`'s result): the identifier
path suffix and the sitemap's last-modified value. -/
structure Entry where
  url : String
  lastmod : Option String
deriving DecidableEq

/-- The feed-diff step of `main` (lines 163-164): keep the endpoints whose
identifier is not in the processed set, then slice to the batch size. -/
def nextBatch (endpoints : List Entry) (processed : Finset String) (limit : Nat) : List Entry :=
  (endpoints.filter (fun ep => decide (ep.url ∉ processed))).take limit

/-- Spec-side description of the batch, written from the claim's words:
walk the input in order collecting entries whose identifier is not in the
processed set, stopping after `limit` of them. -/
def firstUnprocessed : List Entry → Finset String → Nat → List Entry
  | [], _, _ => []
  | _ :: _, _, 0 => []
  | e :: rest, p, Nat.succ k =>
      if e.url ∈ p then firstUnprocessed rest p (Nat.succ k)
      else e :: firstUnprocessed rest p k

/-- A flat record: the insertion-ordered mapping built by `parse_product`
(a Python dict from column names to JSON values). -/
abbrev FlatRecord := List (String × JVal)

/-- Python `d[k] = v` on an insertion-ordered dict: an existing key keeps
its position and gets the new value, a new key is appended. -/
def dictSet (m : FlatRecord) (k : String) (v : JVal) : FlatRecord :=
  match m with
  | [] => [(k, v)]
  | (k1, v1) :: rest => if k1 = k then (k1, v) :: rest else (k1, v1) :: dictSet rest k v

/-- Python `d.update(pairs)`: assign each pair in order. -/
def dictUpdate (m : FlatRecord) (pairs : List (String × JVal)) : FlatRecord :=
  pairs.foldl (fun acc kv => dictSet acc kv.1 kv.2) m

/-- Lookup in a flat record (first occurrence; records built through
`dictSet` have unique keys). -/
def dlookup (m : FlatRecord) (k : String) : Option JVal :=
  match m with
  | [] => none
  | (k1, v) :: rest => if k1 = k then some v else dlookup rest k

/-- The column names of a flat record. -/
def recordKeys (r : FlatRecord) : List String := r.map Prod.fst

/-- The `lastmod` argument of `parse_product` as a JSON value
(a string or None). -/
def optStr : Option String → JVal
  | none => .null
  | some s => .str s

/-- The body of the related-items list comprehension of `parse_product`
(lines 124-127): `{"Name": x.get("name"), "Price": x.get("price")}`. -/
def mkRelPairE (x : JVal) : Except Unit JVal := do
  let n ← jget x "name" .null
  let p ← jget x "price" .null
  pure (JVal.obj [("Name", n), ("Price", p)])

/-- Total variant of `mkRelPairE`, for stating what a successful parse
produces. -/
def mkRelPair (x : JVal) : JVal :=
  JVal.obj [("Name", jgetD x "name" .null), ("Price", jgetD x "price" .null)]

/-- The body of the inner spec loop of `parse_product` (source lines
110-115): read the spec's title and description from one spec entry, and
record the `"<category title>.<spec title>"` column when the title is
truthy. -/
def specStep (title : JVal) (result : FlatRecord) (spec : JVal) : Except Unit FlatRecord := do
  let spec_title ← jget spec "title" .null
  let spec_description ← jget spec "description" .null
  if truthy spec_title then
    pure (dictSet result (pyStr title ++ "." ++ pyStr spec_title) spec_description)
  else
    pure result

/-- The body of the outer category loop of `parse_product` (source lines
106-115): read the category's title and items, and when the title is
truthy fold the spec entries through `specStep`. -/
def catStep (result : FlatRecord) (category : JVal) : Except Unit FlatRecord := do
  let title ← jget category "title" .null
  let items ← jget category "items" (.arr [])
  if truthy title then do
    let specs ← pyIter items
    specs.foldlM (specStep title) result
  else
    pure result

/-- The record flattener `parse_product` (source lines 99-129), with every
Python attribute access that can raise modelled in `Except`:
flatten `fullSpecs` into `"<category title>.<spec title>"` columns, then
`update` the dict with the seven fixed core fields. -/
def parse_product (data : JVal) (lastmod : Option String) : Except Unit FlatRecord := do
  let item ← jget data "item" (.obj [])
  let full_specs ← jget item "fullSpecs" (.arr [])
  let cats ← pyIter full_specs
  let specResult ← cats.foldlM catStep ([] : FlatRecord)
  let name ← jget item "name" .null
  let brandObj ← jget item "brand" (.obj [])
  let brand ← jget brandObj "name" .null
  let price ← jget item "price" .null
  let priceDrop ← jget item "priceDrop" .null
  let priceDropAmount ← jget item "priceDropAmount" .null
  let relatedObj ← jget item "relatedItems" (.obj [])
  let productsVal ← jget relatedObj "products" (.arr [])
  let products ← pyIter productsVal
  let relatedPairs ← products.mapM mkRelPairE
  pure (dictUpdate specResult
    [("Name", name), ("Brand", brand), ("Price", price),
     ("Price Drop", priceDrop), ("Price Drop Amount", priceDropAmount),
     ("Last modified", optStr lastmod),
     ("Related Items", .str (dumpsV ", " ": " (.arr relatedPairs)))])

/-- The access path to the nested related-products list, as `parse_product`
reads it: `data.get("item", {}).get("relatedItems", {}).get("products", [])`
iterated. -/
def relProducts (data : JVal) : Except Unit (List JVal) := do
  let item ← jget data "item" (.obj [])
  let relatedObj ← jget item "relatedItems" (.obj [])
  let productsVal ← jget relatedObj "products" (.arr [])
  pyIter productsVal

/-- Total variant of `relProducts`: the empty list when the access path
fails. -/
def relProductsD (data : JVal) : List JVal :=
  match relProducts data with
  | .ok l => l
  | .error _ => []

/-- `data.get("item", {})`, totally. -/
def itemOf (data : JVal) : JVal := jgetD data "item" (.obj [])

/-- The value `parse_product` stores under `"Name"`. -/
def coreNameVal (data : JVal) : JVal := jgetD (itemOf data) "name" .null

/-- The value `parse_product` stores under `"Brand"`. -/
def coreBrandVal (data : JVal) : JVal :=
  jgetD (jgetD (itemOf data) "brand" (.obj [])) "name" .null

/-- The value `parse_product` stores under `"Price"`. -/
def corePriceVal (data : JVal) : JVal := jgetD (itemOf data) "price" .null

/-- The value `parse_product` stores under `"Price Drop"`. -/
def corePriceDropVal (data : JVal) : JVal := jgetD (itemOf data) "priceDrop" .null

/-- The value `parse_product` stores under `"Price Drop Amount"`. -/
def corePriceDropAmountVal (data : JVal) : JVal := jgetD (itemOf data) "priceDropAmount" .null

/-- Whether a JSON value is an object (a Python dict). -/
def isObj : JVal → Bool
  | .obj _ => true
  | _ => false

/-- Whether every element of a JSON array is an object. -/
def allObjs : JVal → Bool
  | .arr xs => xs.all isObj
  | _ => false

/-- Well-shapedness of the `fullSpecs` value: a list of category objects
whose `items` entries (defaulting to `[]`) are lists of spec objects. -/
def wellShapedSpecs (fs : JVal) : Bool :=
  match fs with
  | .arr cats => cats.all (fun c => isObj c && allObjs (jgetD c "items" (.arr [])))
  | _ => false

/-- Sufficient well-shapedness of an input document for `parse_product`:
the document and its `item` are objects, and the optional nested fields,
where present, have the container types the flattener expects.  All the
nested fields may be absent (each check passes on the default). -/
def wellShaped (data : JVal) : Bool :=
  isObj data &&
  isObj (itemOf data) &&
  wellShapedSpecs (jgetD (itemOf data) "fullSpecs" (.arr [])) &&
  isObj (jgetD (itemOf data) "brand" (.obj [])) &&
  isObj (jgetD (itemOf data) "relatedItems" (.obj [])) &&
  allObjs (jgetD (jgetD (itemOf data) "relatedItems" (.obj [])) "products" (.arr []))

/-- Whether an `Except` computation succeeded. -/
def exOk {α : Type} : Except Unit α → Bool
  | .ok _ => true
  | .error _ => false

/-- The successful value of an `Except` computation, if any. -/
def exToOption {α : Type} : Except Unit α → Option α
  | .ok a => some a
  | .error _ => none

/-- One iteration of `main`'s fetch loop for one endpoint (lines 175-176):
the external fetch followed by `parse_product`; a failure of either is the
caught exception. -/
def itemResult (fetchData : Entry → Except Unit JVal) (ep : Entry) : Except Unit FlatRecord :=
  fetchData ep >>= fun d => parse_product d ep.lastmod

/-- The fetch loop of `main` (lines 172-182): successful items are appended
to the accumulator and their identifier added to the processed set; a
failure is caught and the loop continues with the next entry. -/
def runBatch (fetchData : Entry → Except Unit JVal) :
    List Entry → List FlatRecord → Finset String → List FlatRecord × Finset String
  | [], acc, processed => (acc, processed)
  | ep :: rest, acc, processed =>
      match itemResult fetchData ep with
      | .ok parsed => runBatch fetchData rest (acc ++ [parsed]) (insert ep.url processed)
      | .error _ => runBatch fetchData rest acc processed

/-- Lexicographic order on character lists by code point, as Python's
`sorted` compares strings. -/
def lexLe : List Char → List Char → Bool
  | [], _ => true
  | _ :: _, [] => false
  | a :: as, b :: bs =>
      if a.toNat < b.toNat then true
      else if b.toNat < a.toNat then false
      else lexLe as bs

/-- Lexicographic order on strings. -/
def strLe (a b : String) : Bool := lexLe a.data b.data

/-- `strLe` as a relation, for `List.Sorted` and `List.insertionSort`. -/
def strRel (a b : String) : Prop := strLe a b = true

instance : DecidableRel strRel := fun a b => instDecidableEqBool (strLe a b) true

/-- Characterization of `lexLe` on two non-empty lists: strictly smaller
head, or equal heads and ordered tails.  Stated as a `def` because the
order instances below, needed by later definitions, are built from it. -/
def lexLe_cons_iff (u v : Char) (us vs : List Char) :
    lexLe (u :: us) (v :: vs) = true ↔
      (u.toNat < v.toNat ∨ (u.toNat = v.toNat ∧ lexLe us vs = true)) := by
  simp only [lexLe]
  split_ifs with hu hv
  · simp [hu]
  · simp
    omega
  · have h : u.toNat = v.toNat := by omega
    simp [h, hu]

/-- Totality of `lexLe`. -/
def lexLe_total : ∀ x y : List Char, lexLe x y = true ∨ lexLe y x = true := by
  intro x
  induction x with
  | nil => intro y; left; rfl
  | cons a as ih =>
    intro y
    cases y with
    | nil => right; rfl
    | cons b bs =>
      rcases Nat.lt_trichotomy a.toNat b.toNat with h | h | h
      · left; rw [lexLe_cons_iff]; exact Or.inl h
      · rcases ih bs with h2 | h2
        · left; rw [lexLe_cons_iff]; exact Or.inr ⟨h, h2⟩
        · right; rw [lexLe_cons_iff]; exact Or.inr ⟨h.symm, h2⟩
      · right; rw [lexLe_cons_iff]; exact Or.inl h

/-- Transitivity of `lexLe`. -/
def lexLe_trans : ∀ x y z : List Char,
    lexLe x y = true → lexLe y z = true → lexLe x z = true := by
  intro x
  induction x with
  | nil => intro y z _ _; rfl
  | cons a as ih =>
    intro y z hxy hyz
    cases y with
    | nil => simp [lexLe] at hxy
    | cons b bs =>
      cases z with
      | nil => simp [lexLe] at hyz
      | cons c cs =>
        rw [lexLe_cons_iff] at hxy hyz ⊢
        rcases hxy with h1 | ⟨h1, hx⟩ <;> rcases hyz with h2 | ⟨h2, hy⟩
        · exact Or.inl (by omega)
        · exact Or.inl (by omega)
        · exact Or.inl (by omega)
        · exact Or.inr ⟨by omega, ih bs cs hx hy⟩

/-- Antisymmetry of `lexLe`. -/
def lexLe_antisymm : ∀ x y : List Char,
    lexLe x y = true → lexLe y x = true → x = y := by
  intro x
  induction x with
  | nil =>
    intro y h1 h2
    cases y with
    | nil => rfl
    | cons b bs => simp [lexLe] at h2
  | cons a as ih =>
    intro y hxy hyx
    cases y with
    | nil => simp [lexLe] at hxy
    | cons b bs =>
      rw [lexLe_cons_iff] at hxy hyx
      rcases hxy with h1 | ⟨h1, hx⟩
      · rcases hyx with h2 | ⟨h2, _⟩ <;> omega
      · rcases hyx with h2 | ⟨h2, hy⟩
        · omega
        · have hab : a = b := by
            apply Char.ext; apply UInt32.ext; exact h1
          rw [hab, ih bs hx hy]

instance : IsTotal String strRel := ⟨fun a b => lexLe_total a.data b.data⟩

instance : IsTrans String strRel :=
  ⟨fun a b c hab hbc => lexLe_trans a.data b.data c.data hab hbc⟩

instance : IsAntisymm String strRel :=
  ⟨fun a b hab hba => String.ext (lexLe_antisymm a.data b.data hab hba)⟩

/-- A loaded tabular store: header columns and one flat record per row
(cells are looked up by column name; a missing key is NaN). -/
structure DF where
  cols : List String
  rows : List FlatRecord

/-- The columns of `pd.json_normalize(all_results)` (line 185): the union
of the records' keys in order of first appearance. -/
def firstSeenCols (records : List FlatRecord) : List String :=
  records.foldl (fun acc r => acc ++ (recordKeys r).filter (fun k => decide (k ∉ acc))) []

/-- `pd.json_normalize(all_results, sep=".")` on flat records: the rows
keep their mappings, the header is the first-seen key union. -/
def normalizeDF (records : List FlatRecord) : DF :=
  { cols := firstSeenCols records, rows := records }

/-- `pd.concat([df_existing, df_new], ignore_index=True)` (line 192):
existing rows first, new rows appended, columns the union (existing
order first, unseen new columns appended). -/
def concatDF (a b : DF) : DF :=
  { cols := a.cols ++ b.cols.filter (fun c => decide (c ∉ a.cols)),
    rows := a.rows ++ b.rows }

/-- `df.reindex(sorted(df.columns), axis=1)` (lines 195-197): the same
column set in lexicographic order; rows are untouched (cells are read by
column name). -/
def reindexDF (d : DF) : DF :=
  { d with cols := List.insertionSort strRel d.cols }

/-- The table-sink commit of `main` (lines 187-203): with an existing
non-empty store (`existing = some dfE`, the source's
`os.path.exists(CSV_FILE) and os.path.getsize(CSV_FILE) > 0`), concatenate
and rewrite with lexicographically reordered columns; otherwise the new
records alone become the store. -/
def tableAppend (existing : Option DF) (records : List FlatRecord) : DF :=
  match existing with
  | some dfE => reindexDF (concatDF dfE (normalizeDF records))
  | none => normalizeDF records

/-- States of the progress-file parser. -/
inductive PMode where
  | preArr
  | postOpen
  | inStr
  | escSt
  | postItem
  | preItem
  | finished
  | failed
deriving DecidableEq

/-- Parser state: mode, reversed characters of the current string literal,
reversed list of parsed strings. -/
structure PSt where
  mode : PMode
  cur : List Char
  accRev : List String
deriving DecidableEq

/-- JSON whitespace. -/
def isWs (c : Char) : Bool := c = ' ' || c = '\n' || c = '\t' || c = '\r'

/-- JSON string escape codes accepted inside a string literal. -/
def unescape (c : Char) : Option Char :=
  if c = '\\' then some '\\'
  else if c = '"' then some '"'
  else if c = 'n' then some '\n'
  else if c = 't' then some '\t'
  else if c = 'r' then some '\r'
  else none

/-- One character of parsing a JSON array of strings (the progress file's
grammar); any unexpected character moves to the absorbing `failed` mode. -/
def stepJson (st : PSt) (c : Char) : PSt :=
  match st.mode with
  | .preArr =>
      if isWs c then st
      else if c = '[' then { st with mode := .postOpen }
      else { st with mode := .failed }
  | .postOpen =>
      if isWs c then st
      else if c = ']' then { st with mode := .finished }
      else if c = '"' then { st with mode := .inStr, cur := [] }
      else { st with mode := .failed }
  | .inStr =>
      if c = '\\' then { st with mode := .escSt }
      else if c = '"' then
        { mode := .postItem, cur := [], accRev := String.mk st.cur.reverse :: st.accRev }
      else { st with cur := c :: st.cur }
  | .escSt =>
      match unescape c with
      | some d => { st with mode := .inStr, cur := d :: st.cur }
      | none => { st with mode := .failed }
  | .postItem =>
      if isWs c then st
      else if c = ',' then { st with mode := .preItem }
      else if c = ']' then { st with mode := .finished }
      else { st with mode := .failed }
  | .preItem =>
      if isWs c then st
      else if c = '"' then { st with mode := .inStr, cur := [] }
      else { st with mode := .failed }
  | .finished =>
      if isWs c then st else { st with mode := .failed }
  | .failed => st

/-- `json.load` restricted to the progress artifact's grammar: run the
parser over the text and accept exactly a complete JSON array of strings
— the only shape `save_progress` ever writes, and the shape the
round-trip statement below is about.  `parseJson` further down models
`json.load` over the full JSON grammar. -/
def parseProgress (txt : String) : Option (List String) :=
  let fin := txt.data.foldl stepJson { mode := .preArr, cur := [], accRev := [] }
  if fin.mode = .finished then some fin.accRev.reverse else none

/-- The items of `json.dump(list, f, indent=2)`: elements separated by a
comma, a newline and the two-space indent. -/
def progressItems : List String → List Char
  | [] => []
  | [x] => quoteChars x
  | x :: y :: xs => quoteChars x ++ [',', '\n', ' ', ' '] ++ progressItems (y :: xs)

/-- `json.dump(list, f, ensure_ascii=False, indent=2)` of a list of
strings (the body of `save_progress`, line 147). -/
def dumpProgress (l : List String) : List Char :=
  match l with
  | [] => ['[', ']']
  | _ => ['[', '\n', ' ', ' '] ++ progressItems l ++ ['\n', ']']

/-- The text of the dump after the first element: separator, next quoted
element, and so on, then the closing newline and bracket. -/
def tailText : List String → List Char
  | [] => ['\n', ']']
  | y :: ys => ',' :: '\n' :: ' ' :: ' ' :: (quoteChars y ++ tailText ys)

/-- `save_progress` (source lines 144-147): write the processed set as a
JSON list. -/
def save_progress (processed_urls : Finset String) : String :=
  String.mk (dumpProgress (processed_urls.sort strRel))

/-- `load_progress` (source lines 134-142) restricted to the artifacts the
pipeline itself persists: no file yields the empty set; an array-of-strings
file is parsed into the `Finset String` the rest of the pipeline consumes.
This restriction backs the round-trip statement; `load_progress_py` below
models the same source lines over the full JSON grammar, including foreign
file contents. -/
def load_progress (file : Option String) : Finset String :=
  match file with
  | none => ∅
  | some txt =>
      match parseProgress txt with
      | some l => l.toFinset
      | none => ∅

/-- A JSON value as `json.load` returns it to Python.  This type backs the
full-grammar model of `load_progress` below: unlike `JVal`, numbers keep
their literal text (`1`, `1.5`, `1e+5`, `NaN`, ...), since the progress
load never inspects a numeric value, only iterability and hashability. -/
inductive PyJson where
  | null
  | bool (b : Bool)
  | num (lexeme : String)
  | str (s : String)
  | arr (xs : List PyJson)
  | obj (kvs : List (String × PyJson))

/-- Skip leading JSON whitespace. -/
def skipWsL : List Char → List Char
  | [] => []
  | c :: r => if isWs c then skipWsL r else c :: r

/-- Building a Python dict from parsed object members: a repeated key keeps
its first position and takes the later value, as `json.load` does. -/
def objInsert (kvs : List (String × PyJson)) (k : String) (v : PyJson) :
    List (String × PyJson) :=
  match kvs with
  | [] => [(k, v)]
  | (k1, v1) :: rest => if k1 = k then (k1, v) :: rest else (k1, v1) :: objInsert rest k v

/-- The value of one hexadecimal digit, for `\uXXXX` escapes. -/
def hexVal (c : Char) : Option Nat :=
  if 48 ≤ c.toNat ∧ c.toNat ≤ 57 then some (c.toNat - 48)
  else if 97 ≤ c.toNat ∧ c.toNat ≤ 102 then some (c.toNat - 87)
  else if 65 ≤ c.toNat ∧ c.toNat ≤ 70 then some (c.toNat - 55)
  else none

/-- The single-character JSON string escapes. -/
def unescapeJson (c : Char) : Option Char :=
  if c = '"' then some '"'
  else if c = '\\' then some '\\'
  else if c = '/' then some '/'
  else if c = 'b' then some '\x08'
  else if c = 'f' then some '\x0c'
  else if c = 'n' then some '\n'
  else if c = 'r' then some '\x0d'
  else if c = 't' then some '\t'
  else none

/-- JSON string literal body (after the opening quote): escapes are
decoded (`\uXXXX` through `Char.ofNat`; surrogate-pair combination is not
modelled, and no statement below depends on decoded foreign string
contents), raw control characters below 0x20 are rejected as in Python's
strict mode. -/
def parseJStringAux : List Char → List Char → Option (String × List Char)
  | [], _ => none
  | '"' :: rest, acc => some (String.mk acc.reverse, rest)
  | '\\' :: 'u' :: h1 :: h2 :: h3 :: h4 :: rest, acc =>
    match hexVal h1, hexVal h2, hexVal h3, hexVal h4 with
    | some a, some b, some c, some d =>
        parseJStringAux rest (Char.ofNat (((a * 16 + b) * 16 + c) * 16 + d) :: acc)
    | _, _, _, _ => none
  | '\\' :: e :: rest, acc =>
    match unescapeJson e with
    | some d => parseJStringAux rest (d :: acc)
    | none => none
  | ['\\'], _ => none
  | c :: rest, acc => if c.toNat < 32 then none else parseJStringAux rest (c :: acc)

/-- A JSON string literal, the opening quote already consumed. -/
def parseJString (cs : List Char) : Option (String × List Char) := parseJStringAux cs []

/-- The longest prefix of decimal digits. -/
def digitsSpan : List Char → List Char × List Char
  | [] => ([], [])
  | c :: r =>
    if c.isDigit then
      match digitsSpan r with
      | (d, r2) => (c :: d, r2)
    else ([], c :: r)

/-- The optional fraction part `.digits` of a JSON number (consumed only
when complete, as the number regular expression matches maximally). -/
def fracPart : List Char → List Char × List Char
  | '.' :: r =>
    (match digitsSpan r with
     | ([], _) => ([], '.' :: r)
     | (d, r2) => ('.' :: d, r2))
  | cs => ([], cs)

/-- The optional exponent part `[eE][+-]?digits` of a JSON number. -/
def expPart : List Char → List Char × List Char
  | c :: r =>
    if c = 'e' ∨ c = 'E' then
      match r with
      | s :: r2 =>
        if s = '+' ∨ s = '-' then
          match digitsSpan r2 with
          | ([], _) => ([], c :: s :: r2)
          | (d, r3) => (c :: s :: d, r3)
        else
          match digitsSpan r with
          | ([], _) => ([], c :: r)
          | (d, r3) => (c :: d, r3)
      | [] => ([], [c])
    else ([], c :: r)
  | [] => ([], [])

/-- A JSON number `-?(0|[1-9][0-9]*)(\.[0-9]+)?([eE][+-]?[0-9]+)?`,
kept as its lexeme. -/
def parseJNumber (cs : List Char) : Option (PyJson × List Char) :=
  let sr : List Char × List Char :=
    match cs with
    | '-' :: r => (['-'], r)
    | _ => ([], cs)
  match sr.2 with
  | [] => none
  | c :: r2 =>
    if c = '0' then
      let fr := fracPart r2
      let er := expPart fr.2
      some (.num (String.mk (sr.1 ++ ['0'] ++ fr.1 ++ er.1)), er.2)
    else if c.isDigit then
      let dr := digitsSpan r2
      let fr := fracPart dr.2
      let er := expPart fr.2
      some (.num (String.mk (sr.1 ++ (c :: dr.1) ++ fr.1 ++ er.1)), er.2)
    else none

mutual
/-- One JSON value over the full grammar `json.load` accepts: object,
array, string, number, `true`/`false`/`null`, and Python's default
non-standard `NaN`/`Infinity`/`-Infinity` constants.  The fuel argument
only bounds nesting depth; each recursive call first consumes at least one
character, so the caller's `length + 1` fuel never runs out. -/
def parseJValue : Nat → List Char → Option (PyJson × List Char)
  | 0, _ => none
  | Nat.succ n, cs =>
    match skipWsL cs with
    | [] => none
    | c :: rest =>
      if c = '"' then
        match parseJString rest with
        | some (s, r2) => some (.str s, r2)
        | none => none
      else if c = '[' then
        match skipWsL rest with
        | ']' :: r2 => some (.arr [], r2)
        | r2 =>
          match parseJValue n r2 with
          | some (v, r3) => parseJArrayRest n [v] r3
          | none => none
      else if c = '\x7b' then
        match skipWsL rest with
        | '\x7d' :: r2 => some (.obj [], r2)
        | r2 =>
          match parseJMember n r2 with
          | some (k, v, r3) => parseJObjRest n (objInsert [] k v) r3
          | none => none
      else if c = 't' then
        match rest with
        | 'r' :: 'u' :: 'e' :: r2 => some (.bool true, r2)
        | _ => none
      else if c = 'f' then
        match rest with
        | 'a' :: 'l' :: 's' :: 'e' :: r2 => some (.bool false, r2)
        | _ => none
      else if c = 'n' then
        match rest with
        | 'u' :: 'l' :: 'l' :: r2 => some (.null, r2)
        | _ => none
      else if c = 'N' then
        match rest with
        | 'a' :: 'N' :: r2 => some (.num "NaN", r2)
        | _ => none
      else if c = 'I' then
        match rest with
        | 'n' :: 'f' :: 'i' :: 'n' :: 'i' :: 't' :: 'y' :: r2 => some (.num "Infinity", r2)
        | _ => none
      else if c = '-' then
        match rest with
        | 'I' :: 'n' :: 'f' :: 'i' :: 'n' :: 'i' :: 't' :: 'y' :: r2 =>
            some (.num "-Infinity", r2)
        | _ => parseJNumber (c :: rest)
      else if c.isDigit then parseJNumber (c :: rest)
      else none
/-- The elements of an array after its first value: `,` value ... `]`. -/
def parseJArrayRest : Nat → List PyJson → List Char → Option (PyJson × List Char)
  | 0, _, _ => none
  | Nat.succ n, acc, cs =>
    match skipWsL cs with
    | ',' :: r =>
      match parseJValue n r with
      | some (v, r2) => parseJArrayRest n (acc ++ [v]) r2
      | none => none
    | ']' :: r => some (.arr acc, r)
    | _ => none
/-- One `"key": value` member of an object. -/
def parseJMember : Nat → List Char → Option (String × PyJson × List Char)
  | 0, _ => none
  | Nat.succ n, cs =>
    match skipWsL cs with
    | '"' :: r =>
      match parseJString r with
      | some (k, r2) =>
        match skipWsL r2 with
        | ':' :: r3 =>
          match parseJValue n r3 with
          | some (v, r4) => some (k, v, r4)
          | none => none
        | _ => none
      | none => none
    | _ => none
/-- The members of an object after its first member: `,` member ... close
brace. -/
def parseJObjRest : Nat → List (String × PyJson) → List Char → Option (PyJson × List Char)
  | 0, _, _ => none
  | Nat.succ n, kvs, cs =>
    match skipWsL cs with
    | ',' :: r =>
      match parseJMember n r with
      | some (k, v, r2) => parseJObjRest n (objInsert kvs k v) r2
      | none => none
    | '\x7d' :: r => some (.obj kvs, r)
    | _ => none
end

/-- `json.load` over the full JSON grammar: one value, surrounded by
optional whitespace, nothing else (extra data is an error, as in Python). -/
def parseJson (txt : String) : Option PyJson :=
  match parseJValue (txt.data.length + 1) txt.data with
  | some (v, rest) => if (skipWsL rest).isEmpty then some v else none
  | none => none

/-- Whether a loaded value is hashable, i.e. acceptable as a Python set
element: scalars are, lists and dicts raise `TypeError`. -/
def pyHashable : PyJson → Bool
  | .arr _ => false
  | .obj _ => false
  | _ => true

/-- Python iteration over a loaded value, as `set(v)` iterates it: lists
yield their elements, strings their one-character substrings, dicts their
keys; scalars raise `TypeError`. -/
def pyIterate : PyJson → Except Unit (List PyJson)
  | .arr xs => .ok xs
  | .str s => .ok (s.data.map (fun c => .str (String.mk [c])))
  | .obj kvs => .ok (kvs.map (fun kv => .str kv.1))
  | _ => .error ()

/-- `set(v)`: the iterated elements when the value is iterable and every
element is hashable, an error otherwise.  The set is modelled by its
enumeration; every statement below depends only on emptiness or
membership, never on multiplicity. -/
def pySet (v : PyJson) : Except Unit (List PyJson) :=
  match pyIterate v with
  | .ok elems => if elems.all pyHashable then .ok elems else .error ()
  | .error e => .error e

/-- `load_progress` (source lines 134-142) over the full JSON grammar:
`try: return set(json.load(f)) except: return set()`.  A missing file
loads as the empty set; so does any text on which `json.load` raises, and
any loaded value on which `set()` raises — the bare `except` swallows
both.  A parseable artifact of any other shape loads as the set of its
iterated elements (a dict gives its keys, a string its characters, a list
its elements).  `load_progress` above is this model restricted to the
array-of-strings artifacts the pipeline itself writes, as the
`Finset String` the rest of the pipeline consumes. -/
def load_progress_py (file : Option String) : List PyJson :=
  match file with
  | none => []
  | some txt =>
    match parseJson txt with
    | none => []
    | some v =>
      match pySet v with
      | .ok elems => elems
      | .error _ => []

-- ===== Theorems =====

theorem saStep_eq_append (n : String) (c : Char) : saStep n c = n ++ encCharSpec c := by
  unfold saStep encCharSpec
  split_ifs with h1 h2
  · rfl
  · rfl
  · rw [String.append_assoc]

theorem foldl_saStep (cs : List Char) : ∀ n : String,
    cs.foldl saStep n = n ++ (cs.map encCharSpec).foldr (· ++ ·) "" := by
  induction cs with
  | nil => intro n; simp
  | cons c rest ih =>
    intro n
    rw [List.foldl_cons, ih, saStep_eq_append, List.map_cons, List.foldr_cons,
      String.append_assoc]

/-- C1: for every non-empty (truthy) JSON descriptor, `Sa` returns the
literal `"1"` followed by the concatenation, character by character, of the
per-character encoding of the compact JSON serialization: the character
itself beyond code point 127, the alphabet symbol at `code % 95` when that
is below 64, and otherwise `"."` followed by the symbol at
`(code % 95) AND 63`; every empty/falsy descriptor encodes to `""`. -/
theorem Sa_characterization (e : JVal) :
    (truthy e = true →
      Sa e = "1" ++ ((dumpsV "," ":" e).data.map encCharSpec).foldr (· ++ ·) "") ∧
    (truthy e = false → Sa e = "") := by
  constructor
  · intro h
    unfold Sa
    rw [if_neg (by simp [h]), foldl_saStep]
  · intro h
    unfold Sa
    rw [if_pos h]

theorem Sa_characterization_wit :
    Sa (JVal.obj [("url", JVal.str "/mobiles/x"), ("t", JVal.num 5)]) =
      "1" ++ (((dumpsV "," ":" (JVal.obj [("url", JVal.str "/mobiles/x"), ("t", JVal.num 5)])).data.map
        encCharSpec).foldr (· ++ ·) "") :=
  (Sa_characterization _).1 (by decide)

theorem nextBatch_eq_firstUnprocessed (endpoints : List Entry) (processed : Finset String) :
    ∀ limit : Nat, nextBatch endpoints processed limit = firstUnprocessed endpoints processed limit := by
  induction endpoints with
  | nil => intro limit; simp [nextBatch, firstUnprocessed]
  | cons e rest ih =>
    intro limit
    by_cases hm : e.url ∈ processed
    · have : nextBatch (e :: rest) processed limit = nextBatch rest processed limit := by
        simp [nextBatch, List.filter_cons, hm]
      rw [this, ih]
      cases limit with
      | zero => cases rest <;> simp [firstUnprocessed, nextBatch]
      | succ k => simp [firstUnprocessed, hm]
    · cases limit with
      | zero => simp [nextBatch, firstUnprocessed]
      | succ k =>
        have : nextBatch (e :: rest) processed (k + 1) = e :: nextBatch rest processed k := by
          simp [nextBatch, List.filter_cons, hm]
        rw [this, ih, firstUnprocessed]
        simp [hm]

/-- C2: the computed batch is exactly the first at-most-`limit` entries of
the input whose identifier is not in the processed set, in the input's
original order (`firstUnprocessed` is that description verbatim); in
particular no batch entry is processed, the length never exceeds the
limit, and a fully-processed or empty input yields `[]`, not an error. -/
theorem nextBatch_correct (endpoints : List Entry) (processed : Finset String) (limit : Nat) :
    nextBatch endpoints processed limit = firstUnprocessed endpoints processed limit ∧
    (∀ ep ∈ nextBatch endpoints processed limit, ep.url ∉ processed) ∧
    (nextBatch endpoints processed limit).length ≤ limit ∧
    (nextBatch endpoints processed limit).Sublist endpoints ∧
    ((∀ ep ∈ endpoints, ep.url ∈ processed) → nextBatch endpoints processed limit = []) ∧
    (endpoints = [] → nextBatch endpoints processed limit = []) := by
  refine ⟨nextBatch_eq_firstUnprocessed endpoints processed limit, ?_, ?_, ?_, ?_, ?_⟩
  · intro ep hep
    have h1 := List.mem_of_mem_take hep
    have h2 := List.of_mem_filter h1
    simpa using h2
  · have h : (nextBatch endpoints processed limit).length ≤ limit := by
      simp only [nextBatch, List.length_take]
      omega
    exact h
  · exact (List.take_sublist _ _).trans (List.filter_sublist _)
  · intro hall
    have : (endpoints.filter (fun ep => decide (ep.url ∉ processed))) = [] := by
      rw [List.filter_eq_nil_iff]
      intro ep hep
      simp [hall ep hep]
    simp only [nextBatch, this, List.take_nil]
  · intro h
    subst h
    simp [nextBatch]

theorem foldl_escChar (c : Char) (cur : List Char) (acc : List String) :
    List.foldl stepJson ⟨.inStr, cur, acc⟩ (escChar c) = ⟨.inStr, c :: cur, acc⟩ := by
  unfold escChar
  split_ifs with h1 h2 h3 h4 h5 <;> subst_vars
  · rfl
  · rfl
  · rfl
  · rfl
  · rfl
  · rw [List.foldl_cons]
    rw [show stepJson ⟨.inStr, cur, acc⟩ c = ⟨.inStr, c :: cur, acc⟩ by
      simp [stepJson, h1, h2]]
    rfl

theorem stepJson_escaped (cs : List Char) : ∀ cur acc,
    List.foldl stepJson ⟨.inStr, cur, acc⟩ (cs.foldr (fun c a => escChar c ++ a) []) =
      ⟨.inStr, cs.reverse ++ cur, acc⟩ := by
  induction cs with
  | nil => intro cur acc; simp
  | cons c rest ih =>
    intro cur acc
    rw [List.foldr_cons, List.foldl_append, foldl_escChar, ih]
    simp

theorem stepJson_quoted (s : String) (cur : List Char) (acc : List String) (m : PMode)
    (hm : m = .postOpen ∨ m = .preItem) :
    List.foldl stepJson ⟨m, cur, acc⟩ (quoteChars s) = ⟨.postItem, [], s :: acc⟩ := by
  have hopen : stepJson ⟨m, cur, acc⟩ '"' = ⟨.inStr, [], acc⟩ := by
    rcases hm with h | h <;> subst h <;> rfl
  rw [quoteChars, List.foldl_cons, hopen, escAll, List.foldl_append, stepJson_escaped]
  simp [stepJson]

theorem stepJson_items (xs : List String) : ∀ (x : String) (cur : List Char) (acc : List String)
    (m : PMode), (m = .postOpen ∨ m = .preItem) →
    List.foldl stepJson ⟨m, cur, acc⟩ (progressItems (x :: xs)) =
      ⟨.postItem, [], (x :: xs).reverse ++ acc⟩ := by
  induction xs with
  | nil =>
    intro x cur acc m hm
    rw [progressItems, stepJson_quoted x cur acc m hm]
    simp
  | cons y ys ih =>
    intro x cur acc m hm
    rw [progressItems, List.foldl_append, List.foldl_append, stepJson_quoted x cur acc m hm]
    rw [show List.foldl stepJson ⟨.postItem, [], x :: acc⟩ [',', '\n', ' ', ' '] =
        ⟨.preItem, [], x :: acc⟩ from rfl]
    rw [ih y [] (x :: acc) .preItem (Or.inr rfl)]
    simp

theorem parse_dump (l : List String) :
    parseProgress (String.mk (dumpProgress l)) = some l := by
  cases l with
  | nil => rfl
  | cons x xs =>
    have hdata : (String.mk (dumpProgress (x :: xs))).data = dumpProgress (x :: xs) := rfl
    rw [parseProgress, hdata, dumpProgress]
    rw [List.foldl_append, List.foldl_append]
    rw [show List.foldl stepJson { mode := .preArr, cur := [], accRev := [] }
        ['[', '\n', ' ', ' '] = ⟨.postOpen, [], []⟩ from rfl]
    rw [stepJson_items xs x [] [] .postOpen (Or.inl rfl)]
    rw [show List.foldl stepJson ⟨.postItem, [], (x :: xs).reverse ++ []⟩ ['\n', ']'] =
        ⟨.finished, [], (x :: xs).reverse ++ []⟩ by rfl]
    simp
    intro h
    exact List.noConfusion h

/-- C8: persisting any finite set of identifier strings and loading it
back returns exactly that set: `load (persist S) = S`. -/
theorem load_after_save (S : Finset String) :
    load_progress (some (save_progress S)) = S := by
  rw [save_progress, load_progress, parse_dump]
  simp

/-- Spot checks of the full-grammar parser against `json.load`: the
accepted and rejected texts below (whitespace handling, escapes, literal
constants, number lexemes, duplicate keys, trailing commas, leading
zeros, extra data, bare words, raw control characters) behave as Python's
parser does on the same inputs. -/
theorem parseJson_examples :
    parseJson "\x7b\"a\" : [1, \x7b\"b\": null\x7d] \x7d"
      = some (.obj [("a", .arr [.num "1", .obj [("b", .null)]])]) ∧
    parseJson "[true,false , null]" = some (.arr [.bool true, .bool false, .null]) ∧
    parseJson "[\"a\\u0041\"]" = some (.arr [.str "aA"]) ∧
    parseJson "-0.5" = some (.num "-0.5") ∧
    parseJson "1e+5" = some (.num "1e+5") ∧
    parseJson "NaN" = some (.num "NaN") ∧
    parseJson "-Infinity" = some (.num "-Infinity") ∧
    parseJson "\x7b\"a\": 1, \"a\": 2\x7d" = some (.obj [("a", .num "2")]) ∧
    parseJson "[ ]" = some (.arr []) ∧
    parseJson "[\n  \"x\",\n  \"y\"\n]" = some (.arr [.str "x", .str "y"]) ∧
    parseJson "" = none ∧
    parseJson "  " = none ∧
    parseJson "abc" = none ∧
    parseJson "tru" = none ∧
    parseJson "[\"a\"" = none ∧
    parseJson "[\"a\",]" = none ∧
    parseJson "\x7b\"a\":\x7d" = none ∧
    parseJson "01" = none ∧
    parseJson "1." = none ∧
    parseJson "+1" = none ∧
    parseJson "\"ab\ncd\"" = none ∧
    parseJson "\"\\x41\"" = none := by
  refine ⟨rfl, rfl, rfl, rfl, rfl, rfl, rfl, rfl, rfl, rfl, rfl, rfl, rfl, rfl, rfl, rfl,
    rfl, rfl, rfl, rfl, rfl, rfl⟩

/-- Concrete behaviour of the full-grammar load on foreign artifacts: a
JSON object loads as its key set, a JSON string as its character set, a
JSON array of numbers as its elements — none of them emptied — while
invalid JSON, a non-iterable value and unhashable elements are each
swallowed into the empty set. -/
theorem load_progress_py_examples :
    load_progress_py (some "\x7b\"url1\": 1\x7d") = [PyJson.str "url1"] ∧
    load_progress_py (some "\"abc\"") = [PyJson.str "a", PyJson.str "b", PyJson.str "c"] ∧
    load_progress_py (some "[1, 2]") = [PyJson.num "1", PyJson.num "2"] ∧
    load_progress_py (some "\x7bnot json") = [] ∧
    load_progress_py (some "5") = [] ∧
    load_progress_py (some "[[1]]") = [] := by
  refine ⟨rfl, rfl, rfl, rfl, rfl, rfl⟩

/-- C9: loading returns the empty set when no prior persisted state
exists, and whenever reading the persisted state raises — the text is not
valid JSON, or the loaded value cannot be made into a set; the bare
`except` swallows the failure into the empty set and no error reaches the
caller (the load is total by construction), while a parseable artifact
loads as the set of its iterated elements. -/
theorem load_progress_py_missing_or_corrupt :
    load_progress_py none = [] ∧
    (∀ txt : String, parseJson txt = none → load_progress_py (some txt) = []) ∧
    (∀ (txt : String) (v : PyJson), parseJson txt = some v → pySet v = .error () →
      load_progress_py (some txt) = []) ∧
    (∀ (txt : String) (v : PyJson) (elems : List PyJson), parseJson txt = some v →
      pySet v = .ok elems → load_progress_py (some txt) = elems) := by
  refine ⟨rfl, ?_, ?_, ?_⟩
  · intro txt h
    simp [load_progress_py, h]
  · intro txt v hp hs
    simp [load_progress_py, hp, hs]
  · intro txt v elems hp hs
    simp [load_progress_py, hp, hs]

theorem load_progress_py_missing_or_corrupt_wit :
    load_progress_py (some "\x7bnot json") = [] :=
  load_progress_py_missing_or_corrupt.2.1 "\x7bnot json" (by rfl)


-- table sink lemmas

theorem mem_foldl_firstSeen (l : List FlatRecord) : ∀ (acc : List String) (k : String),
    k ∈ l.foldl (fun acc r => acc ++ (recordKeys r).filter (fun k => decide (k ∉ acc))) acc ↔
      k ∈ acc ∨ ∃ r ∈ l, k ∈ recordKeys r := by
  induction l with
  | nil => intro acc k; simp
  | cons r rest ih =>
    intro acc k
    rw [List.foldl_cons, ih]
    simp [List.mem_append, List.mem_filter]
    tauto

theorem mem_firstSeenCols (records : List FlatRecord) (k : String) :
    k ∈ firstSeenCols records ↔ ∃ r ∈ records, k ∈ recordKeys r := by
  rw [firstSeenCols, mem_foldl_firstSeen]
  simp

theorem dlookup_eq_none_of_not_mem (r : FlatRecord) (k : String) :
    k ∉ recordKeys r → dlookup r k = none := by
  induction r with
  | nil => intro _; rfl
  | cons kv rest ih =>
    obtain ⟨k1, v⟩ := kv
    intro h
    simp only [recordKeys, List.map_cons, List.mem_cons] at h
    push_neg at h
    rw [dlookup, if_neg (fun hk => h.1 hk.symm)]
    exact ih (fun hk => h.2 (by simpa [recordKeys] using hk))

/-- C6: appending to an existing non-empty store keeps the existing rows
first, appends the new rows without deduplication, makes the column set
the union of the prior store's columns with the new records' key set,
reorders the columns lexicographically, and leaves a row's missing columns
as empty (`none`) cells. -/
theorem tableAppend_existing (dfE : DF) (records : List FlatRecord) (_hrec : records ≠ []) :
    (tableAppend (some dfE) records).rows = dfE.rows ++ records ∧
    (tableAppend (some dfE) records).cols.toFinset =
      dfE.cols.toFinset ∪ (firstSeenCols records).toFinset ∧
    (∀ k, k ∈ firstSeenCols records ↔ ∃ r ∈ records, k ∈ recordKeys r) ∧
    List.Sorted strRel (tableAppend (some dfE) records).cols ∧
    (∀ row ∈ (tableAppend (some dfE) records).rows, ∀ c,
      c ∉ recordKeys row → dlookup row c = none) := by
  refine ⟨rfl, ?_, fun k => mem_firstSeenCols records k, ?_, ?_⟩
  · ext x
    simp only [tableAppend, reindexDF, concatDF, normalizeDF, List.mem_toFinset,
      Finset.mem_union]
    rw [(List.perm_insertionSort strRel _).mem_iff]
    simp [List.mem_filter]
    tauto
  · exact List.sorted_insertionSort strRel _
  · intro row _ c hc
    exact dlookup_eq_none_of_not_mem row c hc

theorem tableAppend_existing_wit :
    (tableAppend (some { cols := ["Name", "Zeta"], rows := [[("Name", JVal.str "a")]] })
      [[("Alpha", JVal.num 1)]]).rows
      = [[("Name", JVal.str "a")]] ++ [[("Alpha", JVal.num 1)]] :=
  (tableAppend_existing { cols := ["Name", "Zeta"], rows := [[("Name", JVal.str "a")]] }
    [[("Alpha", JVal.num 1)]] (by simp)).1

/-- C7 (amended): after every rewrite of an existing non-empty store the
header columns are in lexicographic order; the first-time write (no prior
store) instead keeps the new records' first-seen column order, which the
counterexample below shows need not be sorted. -/
theorem tableAppend_rewrite_sorted (dfE : DF) (records : List FlatRecord) :
    List.Sorted strRel ((tableAppend (some dfE) records).cols) :=
  List.sorted_insertionSort strRel _

/-- C7 counterexample: on the first-time write (no existing store) the
header is the records' natural column order, here `["Name", "Brand"]`,
which is not lexicographically sorted. -/
theorem tableAppend_first_write_unsorted :
    (tableAppend none [[("Name", JVal.null), ("Brand", JVal.null)]]).cols = ["Name", "Brand"] ∧
    ¬ List.Sorted strRel ((tableAppend none [[("Name", JVal.null), ("Brand", JVal.null)]]).cols) := by
  constructor
  · decide
  · intro h
    have : strRel "Name" "Brand" := by
      have hcols : (tableAppend none [[("Name", JVal.null), ("Brand", JVal.null)]]).cols
          = ["Name", "Brand"] := by decide
      rw [hcols] at h
      exact List.rel_of_sorted_cons h "Brand" (by simp)
    exact absurd this (by decide)

theorem runBatch_characterization (f : Entry → Except Unit JVal) (batch : List Entry) :
    ∀ (acc : List FlatRecord) (p : Finset String),
    runBatch f batch acc p =
      (acc ++ batch.filterMap (fun ep => exToOption (itemResult f ep)),
       p ∪ ((batch.filter (fun ep => exOk (itemResult f ep))).map Entry.url).toFinset) := by
  induction batch with
  | nil => intro acc p; simp [runBatch]
  | cons ep rest ih =>
    intro acc p
    cases hi : itemResult f ep with
    | ok r =>
      have hstep : runBatch f (ep :: rest) acc p =
          runBatch f rest (acc ++ [r]) (insert ep.url p) := by
        rw [runBatch, hi]
      have h1 : exToOption (itemResult f ep) = some r := by rw [hi]; rfl
      have h2 : exOk (itemResult f ep) = true := by rw [hi]; rfl
      rw [hstep, ih]
      simp only [h1, h2, Prod.mk.injEq, List.filter_cons, List.filterMap_cons, if_pos,
        List.map_cons, List.toFinset_cons]
      refine ⟨by simp, ?_⟩
      rw [Finset.insert_union, Finset.union_insert]
    | error e =>
      have hstep : runBatch f (ep :: rest) acc p = runBatch f rest acc p := by
        rw [runBatch, hi]
      have h1 : exToOption (itemResult f ep) = none := by rw [hi]; rfl
      have h2 : exOk (itemResult f ep) = false := by rw [hi]; rfl
      rw [hstep, ih]
      simp [h1, h2, List.filter_cons]

/-- C3: a fetch or flatten failure of one entry skips that entry and
continues the batch: the accumulated results are exactly the successful
items in order, the processed set grows by exactly the identifiers of the
successful entries, and an identifier all of whose batch occurrences fail
is in the final processed set only if it was already processed before. -/
theorem runBatch_skips_failures (f : Entry → Except Unit JVal) (batch : List Entry)
    (p : Finset String) :
    (runBatch f batch [] p).1 = batch.filterMap (fun ep => exToOption (itemResult f ep)) ∧
    (runBatch f batch [] p).2 =
      p ∪ ((batch.filter (fun ep => exOk (itemResult f ep))).map Entry.url).toFinset ∧
    (∀ ep ∈ batch, exOk (itemResult f ep) = false →
      (∀ ep2 ∈ batch, ep2.url = ep.url → exOk (itemResult f ep2) = false) →
      (ep.url ∈ (runBatch f batch [] p).2 ↔ ep.url ∈ p)) := by
  rw [runBatch_characterization]
  refine ⟨by simp, rfl, ?_⟩
  intro ep hep hfail hall
  simp only [Finset.mem_union, List.mem_toFinset, List.mem_map, List.mem_filter]
  constructor
  · rintro (h | ⟨ep2, ⟨hep2, hok⟩, hurl⟩)
    · exact h
    · exact absurd (hall ep2 hep2 hurl) (by simp [hok])
  · intro h
    exact Or.inl h

-- parse_product machinery

theorem bind_ok {α β : Type} (a : α) (f : α → Except Unit β) :
    ((Except.ok a : Except Unit α) >>= f) = f a := rfl

theorem ebind_ok_iff {α β : Type} (x : Except Unit α) (f : α → Except Unit β) (b : β) :
    (x >>= f) = .ok b ↔ ∃ a, x = .ok a ∧ f a = .ok b := by
  cases x <;> simp [Bind.bind, Except.bind]

theorem jget_ok_of_isObj (v : JVal) (k : String) (d : JVal) (h : isObj v = true) :
    jget v k d = .ok (jgetD v k d) := by
  cases v <;> simp_all [jget, jgetD, isObj]

theorem jget_ok_elim (v : JVal) (k : String) (d a : JVal) (h : jget v k d = .ok a) :
    a = jgetD v k d := by
  cases v <;> simp_all [jget, jgetD]

theorem allObjs_elim (v : JVal) (h : allObjs v = true) :
    ∃ xs, v = .arr xs ∧ ∀ x ∈ xs, isObj x = true := by
  cases v <;> simp_all [allObjs, List.all_eq_true]

theorem wellShapedSpecs_elim (fs : JVal) (h : wellShapedSpecs fs = true) :
    ∃ cats, fs = .arr cats ∧
      ∀ c ∈ cats, isObj c = true ∧ allObjs (jgetD c "items" (.arr [])) = true := by
  cases fs <;> simp_all [wellShapedSpecs, List.all_eq_true]

theorem foldlM_all_ok {α β : Type} (f : β → α → Except Unit β) (l : List α)
    (h : ∀ a ∈ l, ∀ b, ∃ c, f b a = .ok c) : ∀ b, ∃ c, l.foldlM f b = .ok c := by
  induction l with
  | nil => intro b; exact ⟨b, rfl⟩
  | cons a as ih =>
    intro b
    obtain ⟨c, hc⟩ := h a (List.mem_cons_self a as) b
    obtain ⟨c2, hc2⟩ := ih (fun x hx => h x (List.mem_cons_of_mem a hx)) c
    refine ⟨c2, ?_⟩
    rw [List.foldlM_cons, hc, bind_ok, hc2]

theorem mapM_all_ok {α β : Type} (f : α → Except Unit β) (l : List α)
    (h : ∀ a ∈ l, ∃ c, f a = .ok c) : ∃ ys, l.mapM f = .ok ys := by
  induction l with
  | nil => exact ⟨[], rfl⟩
  | cons a as ih =>
    obtain ⟨c, hc⟩ := h a (List.mem_cons_self a as)
    obtain ⟨ys, hys⟩ := ih (fun x hx => h x (List.mem_cons_of_mem a hx))
    refine ⟨c :: ys, ?_⟩
    rw [List.mapM_cons, hc, bind_ok, hys, bind_ok]
    rfl

theorem mkRelPairE_ok (x : JVal) (h : isObj x = true) : mkRelPairE x = .ok (mkRelPair x) := by
  obtain ⟨kvs, rfl⟩ : ∃ kvs, x = .obj kvs := by cases x <;> simp_all [isObj]
  rfl

theorem specStep_ok (title : JVal) (s : JVal) (hs : isObj s = true) :
    ∀ b : FlatRecord, ∃ r2, specStep title b s = .ok r2 := by
  intro b
  rw [specStep, jget_ok_of_isObj _ _ _ hs, bind_ok, jget_ok_of_isObj _ _ _ hs, bind_ok]
  by_cases ht : truthy (jgetD s "title" .null) = true
  · rw [if_pos ht]
    exact ⟨_, rfl⟩
  · rw [if_neg ht]
    exact ⟨b, rfl⟩

theorem catStep_ok (c : JVal) (hc : isObj c = true)
    (hitems : allObjs (jgetD c "items" (.arr [])) = true) :
    ∀ b : FlatRecord, ∃ r2, catStep b c = .ok r2 := by
  intro b
  rw [catStep, jget_ok_of_isObj _ _ _ hc, bind_ok, jget_ok_of_isObj _ _ _ hc, bind_ok]
  obtain ⟨specs, hsp, hall⟩ := allObjs_elim _ hitems
  by_cases ht : truthy (jgetD c "title" .null) = true
  · rw [if_pos ht, hsp]
    rw [show pyIter (.arr specs) = .ok specs from rfl, bind_ok]
    exact foldlM_all_ok _ specs (fun s hs b2 => specStep_ok _ s (hall s hs) b2) b
  · rw [if_neg ht]
    exact ⟨b, rfl⟩

/-- C4 (amended): `parse_product` never raises on any input whose present
nested fields have the container types the flattener expects
(`wellShaped`); in particular every nested object may be absent, in which
case the access degrades to the defaulted value rather than failing. -/
theorem parse_product_ok_of_wellShaped (data : JVal) (lastmod : Option String)
    (h : wellShaped data = true) : exOk (parse_product data lastmod) = true := by
  rw [wellShaped] at h
  simp only [Bool.and_eq_true] at h
  obtain ⟨⟨⟨⟨⟨h1, h2⟩, h3⟩, h4⟩, h5⟩, h6⟩ := h
  have h2' : isObj (jgetD data "item" (.obj [])) = true := h2
  obtain ⟨cats, hfs, hcats⟩ := wellShapedSpecs_elim _ h3
  have hfs' : jgetD (jgetD data "item" (.obj [])) "fullSpecs" (.arr []) = .arr cats := hfs
  obtain ⟨sr, hsr⟩ :=
    foldlM_all_ok catStep cats (fun c hc b => catStep_ok c (hcats c hc).1 (hcats c hc).2 b) []
  have h4' : isObj (jgetD (jgetD data "item" (.obj [])) "brand" (.obj [])) = true := h4
  have h5' : isObj (jgetD (jgetD data "item" (.obj [])) "relatedItems" (.obj [])) = true := h5
  obtain ⟨ps, hps, hallps⟩ := allObjs_elim _ h6
  have hps' : jgetD (jgetD (jgetD data "item" (.obj [])) "relatedItems" (.obj []))
      "products" (.arr []) = .arr ps := hps
  obtain ⟨ys, hys⟩ := mapM_all_ok mkRelPairE ps (fun x hx => ⟨_, mkRelPairE_ok x (hallps x hx)⟩)
  rw [parse_product, jget_ok_of_isObj _ _ _ h1, bind_ok,
    jget_ok_of_isObj _ _ _ h2', bind_ok, hfs',
    show pyIter (.arr cats) = .ok cats from rfl, bind_ok, hsr, bind_ok,
    jget_ok_of_isObj _ _ _ h2', bind_ok,
    jget_ok_of_isObj _ _ _ h2', bind_ok,
    jget_ok_of_isObj _ _ _ h4', bind_ok,
    jget_ok_of_isObj _ _ _ h2', bind_ok,
    jget_ok_of_isObj _ _ _ h2', bind_ok,
    jget_ok_of_isObj _ _ _ h2', bind_ok,
    jget_ok_of_isObj _ _ _ h2', bind_ok,
    jget_ok_of_isObj _ _ _ h5', bind_ok, hps',
    show pyIter (.arr ps) = .ok ps from rfl, bind_ok, hys, bind_ok]
  rfl

/-- C4 counterexample: `parse_product` is not total on arbitrary JSON
documents: on `{"item": {"brand": "Apple"}}` the source evaluates
`item.get("brand", {}).get("name")` with `brand` bound to a string, and
`str.get` raises `AttributeError` (modelled as `Except.error`). -/
theorem parse_product_raises_on_string_brand :
    parse_product (JVal.obj [("item", JVal.obj [("brand", JVal.str "Apple")])]) none
      = Except.error () := by rfl

theorem parse_product_ok_of_wellShaped_wit :
    exOk (parse_product (JVal.obj [("item", JVal.obj [("name", JVal.str "Pixel")])]) (some "2024"))
      = true :=
  parse_product_ok_of_wellShaped
    (JVal.obj [("item", JVal.obj [("name", JVal.str "Pixel")])]) (some "2024") (by decide)

-- dict lookup lemmas

theorem dlookup_dictSet_self (m : FlatRecord) (k : String) (v : JVal) :
    dlookup (dictSet m k v) k = some v := by
  induction m with
  | nil => simp [dictSet, dlookup]
  | cons kv rest ih =>
    obtain ⟨k1, v1⟩ := kv
    by_cases hk : k1 = k
    · simp [dictSet, dlookup, hk]
    · simp [dictSet, dlookup, hk, ih]

theorem dlookup_dictSet_ne (m : FlatRecord) (k k' : String) (v : JVal) (h : k' ≠ k) :
    dlookup (dictSet m k v) k' = dlookup m k' := by
  have h' : ¬ k = k' := fun hx => h hx.symm
  induction m with
  | nil => simp [dictSet, dlookup, h']
  | cons kv rest ih =>
    obtain ⟨k1, v1⟩ := kv
    by_cases hk : k1 = k
    · subst hk
      simp [dictSet, dlookup, h']
    · by_cases hk2 : k1 = k'
      · simp [dictSet, dlookup, hk, hk2, h]
      · simp [dictSet, dlookup, hk, hk2, ih]

theorem dictUpdate_core_lookups (m : FlatRecord) (n b pr pd pda lm ri : JVal) :
    dlookup (dictUpdate m [("Name", n), ("Brand", b), ("Price", pr),
        ("Price Drop", pd), ("Price Drop Amount", pda),
        ("Last modified", lm), ("Related Items", ri)]) "Name" = some n ∧
    dlookup (dictUpdate m [("Name", n), ("Brand", b), ("Price", pr),
        ("Price Drop", pd), ("Price Drop Amount", pda),
        ("Last modified", lm), ("Related Items", ri)]) "Brand" = some b ∧
    dlookup (dictUpdate m [("Name", n), ("Brand", b), ("Price", pr),
        ("Price Drop", pd), ("Price Drop Amount", pda),
        ("Last modified", lm), ("Related Items", ri)]) "Price" = some pr ∧
    dlookup (dictUpdate m [("Name", n), ("Brand", b), ("Price", pr),
        ("Price Drop", pd), ("Price Drop Amount", pda),
        ("Last modified", lm), ("Related Items", ri)]) "Price Drop" = some pd ∧
    dlookup (dictUpdate m [("Name", n), ("Brand", b), ("Price", pr),
        ("Price Drop", pd), ("Price Drop Amount", pda),
        ("Last modified", lm), ("Related Items", ri)]) "Price Drop Amount" = some pda ∧
    dlookup (dictUpdate m [("Name", n), ("Brand", b), ("Price", pr),
        ("Price Drop", pd), ("Price Drop Amount", pda),
        ("Last modified", lm), ("Related Items", ri)]) "Last modified" = some lm ∧
    dlookup (dictUpdate m [("Name", n), ("Brand", b), ("Price", pr),
        ("Price Drop", pd), ("Price Drop Amount", pda),
        ("Last modified", lm), ("Related Items", ri)]) "Related Items" = some ri := by
  simp only [dictUpdate, List.foldl_cons, List.foldl_nil]
  refine ⟨?_, ?_, ?_, ?_, ?_, ?_, ?_⟩ <;>
    simp [dlookup_dictSet_self, dlookup_dictSet_ne]

theorem mapM_mkRelPairs (l : List JVal) : ∀ ys, l.mapM mkRelPairE = .ok ys →
    ys = l.map mkRelPair := by
  induction l with
  | nil =>
    intro ys h
    simp only [List.mapM_nil] at h
    simpa [pure, Except.pure] using h.symm
  | cons x xs ih =>
    intro ys h
    rw [List.mapM_cons] at h
    rw [ebind_ok_iff] at h
    obtain ⟨y, hy, h⟩ := h
    rw [ebind_ok_iff] at h
    obtain ⟨ys2, hys2, h⟩ := h
    rw [mkRelPairE] at hy
    rw [ebind_ok_iff] at hy
    obtain ⟨n, hn, hy⟩ := hy
    rw [ebind_ok_iff] at hy
    obtain ⟨p, hp, hy⟩ := hy
    have hyv : y = JVal.obj [("Name", n), ("Price", p)] := by
      simpa [pure, Except.pure] using hy.symm
    have hysv : ys = y :: ys2 := by
      simpa [pure, Except.pure] using h.symm
    rw [hysv, hyv, ih ys2 hys2, jget_ok_elim _ _ _ _ hn, jget_ok_elim _ _ _ _ hp]
    rfl

theorem parse_product_ok_shape (data : JVal) (lastmod : Option String) (r : FlatRecord)
    (h : parse_product data lastmod = .ok r) :
    ∃ specR prods,
      relProducts data = .ok prods ∧
      r = dictUpdate specR
        [("Name", coreNameVal data), ("Brand", coreBrandVal data), ("Price", corePriceVal data),
         ("Price Drop", corePriceDropVal data),
         ("Price Drop Amount", corePriceDropAmountVal data),
         ("Last modified", optStr lastmod),
         ("Related Items", .str (dumpsV ", " ": " (.arr (prods.map mkRelPair))))] := by
  rw [parse_product] at h
  rw [ebind_ok_iff] at h
  obtain ⟨item, hitem, h⟩ := h
  rw [ebind_ok_iff] at h
  obtain ⟨fs, hfs, h⟩ := h
  rw [ebind_ok_iff] at h
  obtain ⟨cats, hcats, h⟩ := h
  rw [ebind_ok_iff] at h
  obtain ⟨specR, hspecR, h⟩ := h
  rw [ebind_ok_iff] at h
  obtain ⟨name, hname, h⟩ := h
  rw [ebind_ok_iff] at h
  obtain ⟨brandObj, hbrandObj, h⟩ := h
  rw [ebind_ok_iff] at h
  obtain ⟨brand, hbrand, h⟩ := h
  rw [ebind_ok_iff] at h
  obtain ⟨price, hprice, h⟩ := h
  rw [ebind_ok_iff] at h
  obtain ⟨priceDrop, hpd, h⟩ := h
  rw [ebind_ok_iff] at h
  obtain ⟨priceDropAmount, hpda, h⟩ := h
  rw [ebind_ok_iff] at h
  obtain ⟨relObj, hrelObj, h⟩ := h
  rw [ebind_ok_iff] at h
  obtain ⟨productsVal, hpv, h⟩ := h
  rw [ebind_ok_iff] at h
  obtain ⟨prods, hprods, h⟩ := h
  rw [ebind_ok_iff] at h
  obtain ⟨pairs, hpairs, h⟩ := h
  have hr : r = dictUpdate specR
      [("Name", name), ("Brand", brand), ("Price", price),
       ("Price Drop", priceDrop), ("Price Drop Amount", priceDropAmount),
       ("Last modified", optStr lastmod),
       ("Related Items", .str (dumpsV ", " ": " (.arr pairs)))] := by
    simpa [pure, Except.pure] using h.symm
  have hit : item = itemOf data := jget_ok_elim _ _ _ _ hitem
  have e1 : relProducts data = .ok prods := by
    rw [relProducts, hitem, bind_ok, hrelObj, bind_ok, hpv, bind_ok]
    exact hprods
  have hnm : name = coreNameVal data := by
    rw [coreNameVal, ← hit]
    exact jget_ok_elim _ _ _ _ hname
  have hbo : brandObj = jgetD item "brand" (.obj []) := jget_ok_elim _ _ _ _ hbrandObj
  have hbr : brand = coreBrandVal data := by
    rw [coreBrandVal, ← hit, ← hbo]
    exact jget_ok_elim _ _ _ _ hbrand
  have hpc : price = corePriceVal data := by
    rw [corePriceVal, ← hit]
    exact jget_ok_elim _ _ _ _ hprice
  have hpd2 : priceDrop = corePriceDropVal data := by
    rw [corePriceDropVal, ← hit]
    exact jget_ok_elim _ _ _ _ hpd
  have hpda2 : priceDropAmount = corePriceDropAmountVal data := by
    rw [corePriceDropAmountVal, ← hit]
    exact jget_ok_elim _ _ _ _ hpda
  have hpr : pairs = prods.map mkRelPair := mapM_mkRelPairs prods pairs hpairs
  refine ⟨specR, prods, e1, ?_⟩
  rw [hr, hnm, hbr, hpc, hpd2, hpda2, hpr]

/-- C10: in every record `parse_product` returns, the seven fixed core
names hold the core values read from the document (and the loop-built spec
columns cannot shadow them), because the core fields are written into the
dict after the spec-flattening loop and `dict.update` overwrites. -/
theorem parse_product_core_fields_override (data : JVal) (lastmod : Option String)
    (r : FlatRecord) (h : parse_product data lastmod = .ok r) :
    dlookup r "Name" = some (coreNameVal data) ∧
    dlookup r "Brand" = some (coreBrandVal data) ∧
    dlookup r "Price" = some (corePriceVal data) ∧
    dlookup r "Price Drop" = some (corePriceDropVal data) ∧
    dlookup r "Price Drop Amount" = some (corePriceDropAmountVal data) ∧
    dlookup r "Last modified" = some (optStr lastmod) ∧
    dlookup r "Related Items" =
      some (.str (dumpsV ", " ": " (.arr ((relProductsD data).map mkRelPair)))) := by
  obtain ⟨specR, prods, hrel, hr⟩ := parse_product_ok_shape data lastmod r h
  have hPD : relProductsD data = prods := by rw [relProductsD, hrel]
  rw [hr, hPD]
  exact dictUpdate_core_lookups specR _ _ _ _ _ _ _

theorem parse_product_core_fields_override_wit :
    dlookup [("Name", JVal.str "Pixel"), ("Brand", JVal.null), ("Price", JVal.num 999),
        ("Price Drop", JVal.null), ("Price Drop Amount", JVal.null),
        ("Last modified", JVal.str "2024"), ("Related Items", JVal.str "[]")] "Name"
      = some (coreNameVal (JVal.obj [("item",
          JVal.obj [("name", JVal.str "Pixel"), ("price", JVal.num 999)])])) :=
  (parse_product_core_fields_override
    (JVal.obj [("item", JVal.obj [("name", JVal.str "Pixel"), ("price", JVal.num 999)])])
    (some "2024")
    [("Name", JVal.str "Pixel"), ("Brand", JVal.null), ("Price", JVal.num 999),
     ("Price Drop", JVal.null), ("Price Drop Amount", JVal.null),
     ("Last modified", JVal.str "2024"), ("Related Items", JVal.str "[]")] (by rfl)).1

/-- C5: every record returned by `parse_product` contains all seven fixed
core fields; the `Related Items` value is always the `json.dumps`
serialization of some JSON array, and when the nested related-products
list is absent or empty it is exactly the string `"[]"`. -/
theorem parse_product_seven_fields (data : JVal) (lastmod : Option String)
    (r : FlatRecord) (h : parse_product data lastmod = .ok r) :
    ((dlookup r "Name").isSome = true ∧ (dlookup r "Brand").isSome = true ∧
     (dlookup r "Price").isSome = true ∧ (dlookup r "Price Drop").isSome = true ∧
     (dlookup r "Price Drop Amount").isSome = true ∧
     (dlookup r "Last modified").isSome = true ∧
     (dlookup r "Related Items").isSome = true) ∧
    (∃ pairs : List JVal,
      dlookup r "Related Items" = some (.str (dumpsV ", " ": " (.arr pairs)))) ∧
    (relProducts data = .ok [] → dlookup r "Related Items" = some (.str "[]")) := by
  obtain ⟨specR, prods, hrel, hr⟩ := parse_product_ok_shape data lastmod r h
  have hl := dictUpdate_core_lookups specR (coreNameVal data) (coreBrandVal data)
    (corePriceVal data) (corePriceDropVal data) (corePriceDropAmountVal data)
    (optStr lastmod) (.str (dumpsV ", " ": " (.arr (prods.map mkRelPair))))
  obtain ⟨l1, l2, l3, l4, l5, l6, l7⟩ := hl
  rw [hr]
  refine ⟨⟨?_, ?_, ?_, ?_, ?_, ?_, ?_⟩, ⟨prods.map mkRelPair, l7⟩, ?_⟩
  · rw [l1]; rfl
  · rw [l2]; rfl
  · rw [l3]; rfl
  · rw [l4]; rfl
  · rw [l5]; rfl
  · rw [l6]; rfl
  · rw [l7]; rfl
  · intro hempty
    rw [hrel] at hempty
    have hpe : prods = [] := by simpa using hempty
    subst hpe
    rw [l7]
    rfl

theorem parse_product_seven_fields_wit :
    (dlookup [("Name", JVal.str "Pixel"), ("Brand", JVal.null), ("Price", JVal.num 999),
        ("Price Drop", JVal.null), ("Price Drop Amount", JVal.null),
        ("Last modified", JVal.str "2024"), ("Related Items", JVal.str "[]")] "Name").isSome
      = true :=
  (parse_product_seven_fields
    (JVal.obj [("item", JVal.obj [("name", JVal.str "Pixel"), ("price", JVal.num 999)])])
    (some "2024")
    [("Name", JVal.str "Pixel"), ("Brand", JVal.null), ("Price", JVal.num 999),
     ("Price Drop", JVal.null), ("Price Drop Amount", JVal.null),
     ("Last modified", JVal.str "2024"), ("Related Items", JVal.str "[]")] (by rfl)).1.1

/-- A plain string character (neither quote nor backslash, code point at
least 32) is consumed verbatim. -/
theorem parseJStringAux_other (c : Char) (t : List Char) (acc : List Char)
    (hq : ¬ c = '"') (hb : ¬ c = '\\') (hc : 32 ≤ c.toNat) :
    parseJStringAux (c :: t) acc = parseJStringAux t (c :: acc) := by
  rw [parseJStringAux.eq_def]
  simp [hq, hb]
  omega

/-- The escaped backslash is decoded. -/
theorem parseJStringAux_bs (t acc : List Char) :
    parseJStringAux ('\\' :: '\\' :: t) acc = parseJStringAux t ('\\' :: acc) := rfl

/-- The escaped quote is decoded. -/
theorem parseJStringAux_qt (t acc : List Char) :
    parseJStringAux ('\\' :: '"' :: t) acc = parseJStringAux t ('"' :: acc) := rfl

/-- The escaped newline is decoded. -/
theorem parseJStringAux_nl (t acc : List Char) :
    parseJStringAux ('\\' :: 'n' :: t) acc = parseJStringAux t ('\n' :: acc) := rfl

/-- The escaped tab is decoded. -/
theorem parseJStringAux_tb (t acc : List Char) :
    parseJStringAux ('\\' :: 't' :: t) acc = parseJStringAux t ('\t' :: acc) := rfl

/-- The escaped carriage return is decoded. -/
theorem parseJStringAux_cr (t acc : List Char) :
    parseJStringAux ('\\' :: 'r' :: t) acc = parseJStringAux t ('\x0d' :: acc) := rfl

/-- The closing quote ends the literal with the accumulated characters. -/
theorem parseJStringAux_close (t acc : List Char) :
    parseJStringAux ('"' :: t) acc = some (String.mk acc.reverse, t) := rfl

/-- The full parser decodes an escaped string body back to its source
characters, for every string whose characters are printable or one of the
three escaped control characters. -/
theorem parseJStringAux_escAll (cs : List Char)
    (h : ∀ c ∈ cs, 32 ≤ c.toNat ∨ c = '\n' ∨ c = '\t' ∨ c = '\x0d') :
    ∀ (acc rest : List Char),
    parseJStringAux ((cs.foldr (fun c a => escChar c ++ a) []) ++ ('"' :: rest)) acc =
      some (String.mk (acc.reverse ++ cs), rest) := by
  induction cs with
  | nil =>
    intro acc rest
    simp only [List.foldr_nil, List.nil_append, parseJStringAux_close, List.append_nil]
  | cons c cs' ih =>
    intro acc rest
    rw [List.foldr_cons, List.append_assoc]
    have hmem : ∀ x ∈ cs', 32 ≤ x.toNat ∨ x = '\n' ∨ x = '\t' ∨ x = '\x0d' :=
      fun x hx => h x (List.mem_cons_of_mem c hx)
    have hc := h c (List.mem_cons_self c cs')
    by_cases h1 : c = '\\'
    · subst h1
      rw [show escChar '\\' = ['\\', '\\'] from rfl]
      simp only [List.cons_append, List.nil_append]
      rw [parseJStringAux_bs, ih hmem]
      simp
    · by_cases h2 : c = '"'
      · subst h2
        rw [show escChar '"' = ['\\', '"'] from rfl]
        simp only [List.cons_append, List.nil_append]
        rw [parseJStringAux_qt, ih hmem]
        simp
      · by_cases h3 : c = '\n'
        · subst h3
          rw [show escChar '\n' = ['\\', 'n'] from rfl]
          simp only [List.cons_append, List.nil_append]
          rw [parseJStringAux_nl, ih hmem]
          simp
        · by_cases h4 : c = '\t'
          · subst h4
            rw [show escChar '\t' = ['\\', 't'] from rfl]
            simp only [List.cons_append, List.nil_append]
            rw [parseJStringAux_tb, ih hmem]
            simp
          · by_cases h5 : c = '\x0d'
            · subst h5
              rw [show escChar '\x0d' = ['\\', 'r'] from rfl]
              simp only [List.cons_append, List.nil_append]
              rw [parseJStringAux_cr, ih hmem]
              simp
            · have hc32 : 32 ≤ c.toNat := by
                rcases hc with hc | hc | hc | hc
                · exact hc
                · exact absurd hc h3
                · exact absurd hc h4
                · exact absurd hc h5
              rw [show escChar c = [c] by simp [escChar, h1, h2, h3, h4, h5]]
              simp only [List.cons_append, List.nil_append]
              rw [parseJStringAux_other c _ acc h2 h1 hc32, ih hmem]
              simp

/-- The full parser reads a serialized string literal back to the original
string. -/
theorem parseJString_escAll (s : String)
    (hs : ∀ c ∈ s.data, 32 ≤ c.toNat ∨ c = '\n' ∨ c = '\t' ∨ c = '\x0d')
    (rest : List Char) :
    parseJString (escAll s ++ ('"' :: rest)) = some (s, rest) := by
  rw [parseJString, escAll, parseJStringAux_escAll s.data hs [] rest]
  simp

/-- A serialized string literal parses as a string value. -/
theorem parseJValue_quoted (s : String)
    (hs : ∀ c ∈ s.data, 32 ≤ c.toNat ∨ c = '\n' ∨ c = '\t' ∨ c = '\x0d')
    (n : Nat) (rest : List Char) :
    parseJValue (Nat.succ n) (quoteChars s ++ rest) = some (.str s, rest) := by
  have hq : quoteChars s ++ rest = '"' :: (escAll s ++ ('"' :: rest)) := by
    rw [quoteChars]
    simp
  rw [hq]
  rw [show parseJValue (Nat.succ n) ('"' :: (escAll s ++ ('"' :: rest)))
      = match parseJString (escAll s ++ ('"' :: rest)) with
        | some (s2, r2) => some (.str s2, r2)
        | none => none from rfl]
  rw [parseJString_escAll s hs rest]

/-- The dump after its first element is separator-plus-element repeated,
then the closing bracket. -/
theorem progressItems_tailText (x : String) (xs : List String) :
    progressItems (x :: xs) ++ ['\n', ']'] = quoteChars x ++ tailText xs := by
  induction xs generalizing x with
  | nil => simp [progressItems, tailText]
  | cons y ys ih =>
    rw [progressItems, tailText]
    simp only [List.append_assoc, List.cons_append, List.nil_append]
    rw [ih y]

/-- With enough fuel, the array-tail parser reads the dumped elements back
in order. -/
theorem parseJArrayRest_tailText (xs : List String)
    (hs : ∀ s ∈ xs, ∀ c ∈ s.data, 32 ≤ c.toNat ∨ c = '\n' ∨ c = '\t' ∨ c = '\x0d') :
    ∀ (n : Nat) (acc : List PyJson), xs.length + 1 ≤ n →
    parseJArrayRest n acc (tailText xs) = some (.arr (acc ++ xs.map PyJson.str), []) := by
  induction xs with
  | nil =>
    intro n acc hn
    match n, hn with
    | Nat.succ m, _ =>
      rw [show parseJArrayRest (Nat.succ m) acc (tailText []) = some (.arr acc, []) from rfl]
      simp
  | cons y ys ih =>
    intro n acc hn
    match n, hn with
    | Nat.succ m, hn =>
      have hm : ys.length + 1 ≤ m := by
        simp only [List.length_cons] at hn
        omega
      match m, hm with
      | Nat.succ k, hm =>
        rw [show parseJArrayRest (Nat.succ (Nat.succ k)) acc (tailText (y :: ys))
            = match parseJValue (Nat.succ k) ('\n' :: ' ' :: ' ' :: (quoteChars y ++ tailText ys)) with
              | some (v, r2) => parseJArrayRest (Nat.succ k) (acc ++ [v]) r2
              | none => none from rfl]
        have hskip : parseJValue (Nat.succ k) ('\n' :: ' ' :: ' ' :: (quoteChars y ++ tailText ys))
            = parseJValue (Nat.succ k) (quoteChars y ++ tailText ys) := by
          rw [show parseJValue (Nat.succ k) ('\n' :: ' ' :: ' ' :: (quoteChars y ++ tailText ys))
              = parseJValue (Nat.succ k) (' ' :: ' ' :: (quoteChars y ++ tailText ys)) from ?_,
            show parseJValue (Nat.succ k) (' ' :: ' ' :: (quoteChars y ++ tailText ys))
              = parseJValue (Nat.succ k) (' ' :: (quoteChars y ++ tailText ys)) from ?_,
            show parseJValue (Nat.succ k) (' ' :: (quoteChars y ++ tailText ys))
              = parseJValue (Nat.succ k) (quoteChars y ++ tailText ys) from ?_]
          all_goals rfl
        rw [hskip, parseJValue_quoted y (hs y (List.mem_cons_self y ys)) k (tailText ys)]
        show parseJArrayRest (Nat.succ k) (acc ++ [PyJson.str y]) (tailText ys)
          = some (.arr (acc ++ (y :: ys).map PyJson.str), [])
        rw [ih (fun s hss => hs s (List.mem_cons_of_mem y hss)) (Nat.succ k) (acc ++ [PyJson.str y]) hm]
        simp

/-- The dump of a non-empty list, split into its head element and tail
text. -/
theorem dumpProgress_cons (x : String) (xs : List String) :
    dumpProgress (x :: xs) = '[' :: '\n' :: ' ' :: ' ' :: (quoteChars x ++ tailText xs) := by
  rw [show dumpProgress (x :: xs)
      = ['[', '\n', ' ', ' '] ++ progressItems (x :: xs) ++ ['\n', ']'] from rfl]
  rw [List.append_assoc, progressItems_tailText]
  simp

/-- Each dumped element takes at least one character. -/
theorem tailText_length (xs : List String) : xs.length ≤ (tailText xs).length := by
  induction xs with
  | nil => simp [tailText]
  | cons y ys ih =>
    rw [tailText]
    simp only [List.length_cons, List.length_append]
    omega

/-- With enough fuel, the full parser reads a dumped non-empty list back
as the array of its strings. -/
theorem parseJValue_dump (x : String) (xs : List String)
    (hs : ∀ s ∈ x :: xs, ∀ c ∈ s.data, 32 ≤ c.toNat ∨ c = '\n' ∨ c = '\t' ∨ c = '\x0d') :
    ∀ n, xs.length + 1 ≤ n →
    parseJValue (Nat.succ n) (dumpProgress (x :: xs))
      = some (.arr ((x :: xs).map PyJson.str), []) := by
  intro n hn
  match n, hn with
  | Nat.succ k, hn =>
    rw [dumpProgress_cons]
    rw [show parseJValue (Nat.succ (Nat.succ k))
          ('[' :: '\n' :: ' ' :: ' ' :: (quoteChars x ++ tailText xs))
        = (match skipWsL ('\n' :: ' ' :: ' ' :: (quoteChars x ++ tailText xs)) with
           | ']' :: r2 => some (.arr [], r2)
           | r2 =>
             match parseJValue (Nat.succ k) r2 with
             | some (v, r3) => parseJArrayRest (Nat.succ k) [v] r3
             | none => none) from rfl]
    have hqx : quoteChars x ++ tailText xs = '"' :: (escAll x ++ ('"' :: tailText xs)) := by
      rw [quoteChars]
      simp
    have hskip2 : skipWsL ('\n' :: ' ' :: ' ' :: (quoteChars x ++ tailText xs))
        = '"' :: (escAll x ++ ('"' :: tailText xs)) := by
      rw [hqx]
      rfl
    rw [hskip2]
    show (match parseJValue (Nat.succ k) ('"' :: (escAll x ++ ('"' :: tailText xs))) with
          | some (v, r3) => parseJArrayRest (Nat.succ k) [v] r3
          | none => none) = _
    rw [← hqx, parseJValue_quoted x (hs x (List.mem_cons_self x xs)) k (tailText xs)]
    show parseJArrayRest (Nat.succ k) [PyJson.str x] (tailText xs)
      = some (.arr ((x :: xs).map PyJson.str), [])
    rw [parseJArrayRest_tailText xs (fun s hss => hs s (List.mem_cons_of_mem x hss))
      (Nat.succ k) [PyJson.str x] hn]
    simp

/-- Coherence of the full-grammar model with the writer: `json.load` over
the full grammar parses `save_progress` output (the `indent=2` format)
back to the array of the persisted strings, for identifier strings of
printable or escaped-control characters. -/
theorem parseJson_dumpProgress (l : List String)
    (hs : ∀ s ∈ l, ∀ c ∈ s.data, 32 ≤ c.toNat ∨ c = '\n' ∨ c = '\t' ∨ c = '\x0d') :
    parseJson (String.mk (dumpProgress l)) = some (.arr (l.map PyJson.str)) := by
  cases l with
  | nil => rfl
  | cons x xs =>
    rw [parseJson]
    have hlen : xs.length + 1 ≤ (dumpProgress (x :: xs)).length := by
      rw [dumpProgress_cons]
      have := tailText_length xs
      simp only [List.length_cons, List.length_append]
      omega
    rw [show (String.mk (dumpProgress (x :: xs))).data = dumpProgress (x :: xs) from rfl]
    rw [show (dumpProgress (x :: xs)).length + 1
        = Nat.succ ((dumpProgress (x :: xs)).length) from rfl]
    rw [parseJValue_dump x xs hs _ hlen]
    rfl

/-- Coherence of the two load models: on an artifact the pipeline itself
persisted, the full-grammar load returns exactly the persisted identifier
strings — the same set the restricted `load_progress` recovers in the
round-trip statement. -/
theorem load_progress_py_save (S : Finset String)
    (hS : ∀ s ∈ S, ∀ c ∈ s.data, 32 ≤ c.toNat ∨ c = '\n' ∨ c = '\t' ∨ c = '\x0d') :
    load_progress_py (some (save_progress S)) = (S.sort strRel).map PyJson.str := by
  rw [load_progress_py, save_progress]
  rw [parseJson_dumpProgress (S.sort strRel)
    (fun s hss => hS s ((Finset.mem_sort strRel).mp hss))]
  show (match pySet (.arr ((S.sort strRel).map PyJson.str)) with
        | .ok elems => elems
        | .error _ => []) = (S.sort strRel).map PyJson.str
  rw [show pySet (.arr ((S.sort strRel).map PyJson.str))
      = .ok ((S.sort strRel).map PyJson.str) by
    rw [pySet, pyIterate]
    simp [List.all_eq_true, pyHashable]]
